import Mathlib

/-
Verification of the AdaBoost decision-stump implementation in hw2_q5.py.

Embedding conventions:
- numpy float64 arrays are modelled as Lean lists over a linear ordered field,
  instantiated at the real numbers in the theorems; floating-point rounding is
  idealised away (all concrete data here is exactly representable and all
  comparisons are far from rounding error, so no branch in the program depends
  on rounding).
- np.arange(lo, hi, step) is modelled by an exact sweep lo, lo+step, ... < hi;
  a fuel parameter makes the recursion structural (any fuel at least the
  number of emitted elements yields the exact numpy list).
- np.exp and np.log enter only in the training loop; the loop is parameterised
  by these functions and is instantiated with Real.exp and Real.log in the
  theorems.  Lean total conventions (division by zero is zero, log of a
  nonpositive number is zero) stand in for IEEE inf and nan; claims about the
  degenerate cases are settled by exhibiting the degenerate value itself, not
  by appealing to those conventions.
- the Python tuple (None, None, None) returned by best_decision_stump when no
  candidate threshold exists is modelled as none; the three variables are only
  ever assigned together, so a single Option of a triple is faithful.
- unpacking that None triple in adaboost makes the Python code raise a
  TypeError when the comparison with None is evaluated; a training run that
  would raise is modelled as none.
- the print calls in the source are side effects that carry no state and are
  ignored, except in loss, whose only output is printed: loss is modelled as
  the pair (returned value, printed array); the Python function body has no
  return statement, so the returned value is always none.
- column access X[:, f] is modelled by reading entry f of each row with
  default 0; the programs considered here never read out of range.
-/

namespace HW2

/-- Comparison direction of a decision stump: the strings ">" and "<" of the
source, as a two-variant type. -/
inductive Dir
  | gt
  | lt
deriving DecidableEq

variable {α : Type} [LinearOrderedField α]

set_option linter.unusedSectionVars false

/-- np.sign. -/
def sgn (x : α) : α := if 0 < x then 1 else if x < 0 then -1 else 0

/-- Column f of the dataset, X[:, f]. -/
def col (X : List (List α)) (f : ℕ) : List α := X.map (fun r => r.getD f 0)

/-- hw2_q5.py lines 4-19: classification result of a decision stump,
np.sign(X[:, feature] - threshold) for ">" and the mirror image for "<". -/
def stump_classification_result (feature : ℕ) (threshold : α) (compare : Dir)
    (X : List (List α)) : List α :=
  match compare with
  | Dir.gt => (col X feature).map (fun v => sgn (v - threshold))
  | Dir.lt => (col X feature).map (fun v => sgn (threshold - v))

/-- w.T @ np.not_equal(t, v): the weighted count of positions where the two
label lists disagree.  Used both for the search error (line 46) and for the
weighted error em (line 83). -/
def dotNe : List α → List α → List α → α
  | w :: ws, t :: ts, v :: vs => w * (if t = v then 0 else 1) + dotNe ws ts vs
  | _, _, _ => 0

/-- np.arange(lo, hi, step) as an exact sweep; the fuel argument only bounds
the recursion depth and any value at least the number of emitted elements
gives the numpy list. -/
def arange (lo hi step : α) : ℕ → List α
  | 0 => []
  | n + 1 => if lo < hi then lo :: arange (lo + step) hi step n else []

/-- np.max of a column (the programs considered never take it of an empty
list; 0 is a junk default). -/
def listMax : List α → α
  | [] => 0
  | v :: vs => vs.foldl max v

/-- np.min of a column. -/
def listMin : List α → α
  | [] => 0
  | v :: vs => vs.foldl min v

/-- hw2_q5.py lines 41-43: the candidate thresholds of one feature, swept from
min + 0.005 to max - 0.005 in steps of 0.01. -/
def gridThresholds (X : List (List α)) (fuel : ℕ) (f : ℕ) : List α :=
  arange (listMin (col X f) + 5/1000) (listMax (col X f) - 5/1000) (1/100) fuel

/-- The candidate triples of the brute-force search in the exact order the
nested loops of lines 40-44 enumerate them: features in increasing order, then
thresholds in sweep order, then direction ">" before "<". -/
def stumpCandidates (X : List (List α)) (fuel : ℕ) : List (ℕ × α × Dir) :=
  (List.range (X.headD []).length).flatMap (fun f =>
    (gridThresholds X fuel f).flatMap (fun t => [(f, t, Dir.gt), (f, t, Dir.lt)]))

/-- hw2_q5.py lines 45-46: the weighted error of one candidate stump. -/
def candErr (w : List α) (X : List (List α)) (y : List α) (c : ℕ × α × Dir) : α :=
  dotNe w (stump_classification_result c.1 c.2.1 c.2.2 X) y

/-- hw2_q5.py lines 47-51: one comparison of the running minimum with a
candidate; the best error and the best triple are updated together. -/
def selStep (w : List α) (X : List (List α)) (y : List α)
    (s : α × Option (ℕ × α × Dir)) (c : ℕ × α × Dir) : α × Option (ℕ × α × Dir) :=
  if candErr w X y c < s.1 then (candErr w X y c, some c) else s

/-- hw2_q5.py lines 22-53: brute-force search for the best decision stump.
The running error starts at n and the running triple at none. -/
def best_decision_stump (w : List α) (X : List (List α)) (y : List α) (fuel : ℕ) :
    Option (ℕ × α × Dir) :=
  ((stumpCandidates X fuel).foldl (selStep w X y) ((X.length : α), none)).2

/-- One entry of np.where(X[:, f] < t, 1, -1), respectively
np.where(X[:, f] > t, 1, -1): the inline stump prediction used at
lines 78-81, 110-113 and 136-139. -/
def wherePredRow (c : ℕ × α × Dir) (v : α) : α :=
  match c.2.2 with
  | Dir.lt => if v < c.2.1 then 1 else -1
  | Dir.gt => if c.2.1 < v then 1 else -1

/-- The inline prediction vector of a stump on the whole dataset. -/
def wherePreds (c : ℕ × α × Dir) (X : List (List α)) : List α :=
  (col X c.1).map (wherePredRow c)

/-- Pointwise combination of three lists, truncating at the shortest;
models elementwise numpy arithmetic on three aligned arrays. -/
def map3 (g : α → α → α → α) : List α → List α → List α → List α
  | a :: l1, b :: l2, c :: l3 => g a b c :: map3 g l1 l2 l3
  | _, _, _ => []

/-- hw2_q5.py line 69: the initial uniform weight vector np.ones(n) / n. -/
def initW (n : ℕ) : List α := List.replicate n (1 / (n : α))

/-- hw2_q5.py lines 73-87: one boosting round.  Select the best stump, compute
the inline predictions and the weighted error em, set
alpha = 0.5 * log((1 - em) / em) with no special case for em = 0 or em = 1,
multiply each weight by exp(-1 * label * alpha * prediction) and renormalise.
A round in which the selector returns the None triple raises in Python and is
modelled as none. -/
def adaboostStep (expa loga : α → α) (X : List (List α)) (y : List α) (fuel : ℕ)
    (w : List α) : Option ((ℕ × α × Dir) × α × List α) :=
  (best_decision_stump w X y fuel).map (fun c =>
    let preds := wherePreds c X
    let em := dotNe w y preds
    let a := 1/2 * loga ((1 - em) / em)
    let w1 := map3 (fun wi yi pi => wi * expa (-1 * yi * a * pi)) w y preds
    (c, a, w1.map (fun v => v / w1.sum)))

/-- The training loop of hw2_q5.py lines 72-88, accumulating the stump list
and the aligned alpha vector in round order, threading the weight vector. -/
def adaboostGo (expa loga : α → α) (X : List (List α)) (y : List α) (fuel : ℕ) :
    ℕ → List α → Option (List (ℕ × α × Dir) × List α)
  | 0, _ => some ([], [])
  | k + 1, w =>
    match adaboostStep expa loga X y fuel w with
    | none => none
    | some r =>
      match adaboostGo expa loga X y fuel k r.2.2 with
      | none => none
      | some p => some (r.1 :: p.1, r.2.1 :: p.2)

/-- hw2_q5.py lines 56-90: train an AdaBoost ensemble of decision stumps. -/
def adaboost (expa loga : α → α) (X : List (List α)) (y : List α) (fuel : ℕ)
    (num_iterations : ℕ) : Option (List (ℕ × α × Dir) × List α) :=
  adaboostGo expa loga X y fuel num_iterations (initW X.length)

/-- The weight vector obtained from w after k further boosting rounds. -/
def stepIter (expa loga : α → α) (X : List (List α)) (y : List α) (fuel : ℕ)
    (w : List α) : ℕ → Option (List α)
  | 0 => some w
  | k + 1 =>
    match stepIter expa loga X y fuel w k with
    | none => none
    | some u => (adaboostStep expa loga X y fuel u).map (fun r => r.2.2)

/-- The weight vector after k completed boosting rounds of a training run. -/
def weightsAfter (expa loga : α → α) (X : List (List α)) (y : List α) (fuel : ℕ)
    (k : ℕ) : Option (List α) :=
  stepIter expa loga X y fuel (initW X.length) k

/-- The weighted error em a round computes from the weight vector w
(hw2_q5.py line 83), or none when the selector returns the None triple. -/
def roundEm (X : List (List α)) (y : List α) (fuel : ℕ) (w : List α) : Option α :=
  (best_decision_stump w X y fuel).map (fun c => dotNe w y (wherePreds c X))

/-- The weighted error em computed in round k of a training run. -/
def emAfter (expa loga : α → α) (X : List (List α)) (y : List α) (fuel : ℕ)
    (k : ℕ) : Option α :=
  match weightsAfter expa loga X y fuel k with
  | none => none
  | some u => roundEm X y fuel u

/-- The exact value of the renormalised weight update when every label and
prediction is in {-1, 1} and em is strictly between 0 and 1: a misclassified
example ends at w / (2 em), a correctly classified one at w / (2 (1 - em)).
Derived characterisation; the code computes the update via exp and a
normalising division. -/
def charUpdate (em : α) : List α → List α → List α → List α :=
  map3 (fun wi yi pi => if yi = pi then wi / (2 * (1 - em)) else wi / (2 * em))

/-- The accumulation loop shared verbatim by classify (lines 107-113) and loss
(lines 133-139): starting from acc, add prediction times alpha for each
(stump, alpha) pair. -/
def accumVotes (fa : List ((ℕ × α × Dir) × α)) (X : List (List α))
    (acc : List α) : List α :=
  fa.foldl (fun o p => List.zipWith (fun oi vi => oi + vi * p.2) o (wherePreds p.1 X)) acc

/-- hw2_q5.py lines 93-116: ensemble prediction.  The accumulator out starts
at np.ones(n), and the final labels are np.where(out > 0, 1, -1). -/
def classify (functions : List (ℕ × α × Dir)) (alpha : List α)
    (X : List (List α)) : List α :=
  (accumVotes (functions.zip alpha) X (X.map (fun _ => 1))).map
    (fun o => if 0 < o then 1 else -1)

/-- hw2_q5.py lines 119-142: the loss function.  The accumulator also starts
at np.ones(n); the function prints np.exp(-1 * y * out) and has no return
statement.  Modelled as the pair (returned value, printed array). -/
def loss (expa : α → α) (functions : List (ℕ × α × Dir)) (alpha : List α)
    (X : List (List α)) (y : List α) : Option (List α) × List α :=
  ((none : Option (List α)),
   List.zipWith (fun yi oi => expa (-1 * yi * oi)) y
     (accumVotes (functions.zip alpha) X (X.map (fun _ => 1))))

/-- Modelled from the spec, section 4.4: the ensemble vote
F(x) = sum of alpha times the stump prediction, with no offset.  Identical to
the accumulation of classify except that the accumulator starts at zero. -/
def specScores (functions : List (ℕ × α × Dir)) (alpha : List α)
    (X : List (List α)) : List α :=
  accumVotes (functions.zip alpha) X (X.map (fun _ => 0))

/-- Modelled from the spec, section 4.4: the per-example exponential loss
exp(-y i * F(x i)) with F the ensemble vote. -/
def specMargin (expa : α → α) (functions : List (ℕ × α × Dir)) (alpha : List α)
    (X : List (List α)) (y : List α) : List α :=
  List.zipWith (fun yi oi => expa (-(yi * oi))) y (specScores functions alpha X)

/-- The dataset of the end-to-end scenario (hw2_q5.py lines 144-152). -/
def Xdata : List (List α) :=
  [[30/100, 15/100], [10/100, 15/100], [12/100, 17/100], [30/100, 17/100],
   [20/100, 18/100], [22/100, 19/100], [45/100, 20/100]]

/-- The labels of the end-to-end scenario (hw2_q5.py line 153). -/
def ydata : List α := [1, 1, 1, -1, 1, -1, -1]

/-- A two-point dataset whose single candidate threshold separates the
points. -/
def Xsep : List (List α) := [[0], [2/100]]

/-- Labels making Xsep perfectly separable by its single candidate stump. -/
def ysep : List α := [-1, 1]

/-- Labels making every stump on Xsep err on exactly one of the two points. -/
def ytwo : List α := [1, 1]

/-- A three-point dataset whose single candidate threshold 0.005 coincides
with the second data point. -/
def Xdeg : List (List α) := [[0], [5/1000], [12/1000]]

/-- Labels for Xdeg under which the selected stump has weighted error 2/3. -/
def ydeg : List α := [-1, 1, -1]

/-- A dataset whose only feature has range 0.01, so the threshold sweep of
every feature is empty. -/
def Xflat : List (List α) := [[0], [1/100]]


/-! Equational and evaluation lemmas for the embedding. -/

@[simp] lemma dotNe_cons (w t v : α) (ws ts vs : List α) :
    dotNe (w :: ws) (t :: ts) (v :: vs)
      = w * (if t = v then 0 else 1) + dotNe ws ts vs := rfl

@[simp] lemma dotNe_nil_left (l2 l3 : List α) : dotNe ([] : List α) l2 l3 = 0 := rfl

@[simp] lemma dotNe_nil_mid (w : α) (ws l3 : List α) : dotNe (w :: ws) [] l3 = 0 := rfl

@[simp] lemma dotNe_nil_right (w t : α) (ws ts : List α) : dotNe (w :: ws) (t :: ts) [] = 0 := rfl

@[simp] lemma map3_cons (g : α → α → α → α) (a b c : α) (l1 l2 l3 : List α) :
    map3 g (a :: l1) (b :: l2) (c :: l3) = g a b c :: map3 g l1 l2 l3 := rfl

@[simp] lemma map3_nil_left (g : α → α → α → α) (l2 l3 : List α) :
    map3 g [] l2 l3 = [] := rfl

@[simp] lemma map3_nil_mid (g : α → α → α → α) (a : α) (l1 l3 : List α) :
    map3 g (a :: l1) [] l3 = [] := rfl

@[simp] lemma map3_nil_right (g : α → α → α → α) (a b : α) (l1 l2 : List α) :
    map3 g (a :: l1) (b :: l2) [] = [] := rfl

@[simp] lemma stump_gt (f : ℕ) (t : α) (X : List (List α)) :
    stump_classification_result f t Dir.gt X = (col X f).map (fun v => sgn (v - t)) := rfl

@[simp] lemma stump_lt (f : ℕ) (t : α) (X : List (List α)) :
    stump_classification_result f t Dir.lt X = (col X f).map (fun v => sgn (t - v)) := rfl

@[simp] lemma wherePredRow_gt (f : ℕ) (t v : α) :
    wherePredRow (f, t, Dir.gt) v = if t < v then 1 else -1 := rfl

@[simp] lemma wherePredRow_lt (f : ℕ) (t v : α) :
    wherePredRow (f, t, Dir.lt) v = if v < t then 1 else -1 := rfl

lemma arange_empty (lo hi step : α) (fuel : ℕ) (h : ¬ lo < hi) :
    arange lo hi step fuel = [] := by
  match fuel with
  | 0 => rfl
  | n + 1 => simp [arange, if_neg h]

lemma arange_eq_map (st : α) (m : ℕ) : ∀ (lo hi : α) (fuel : ℕ),
    (∀ k : ℕ, k < m → lo + (k : α) * st < hi) → ¬ (lo + (m : α) * st < hi) → m ≤ fuel →
    arange lo hi st fuel = (List.range m).map (fun k : ℕ => lo + (k : α) * st) := by
  induction m with
  | zero =>
    intro lo hi fuel _ h0 _
    simp only [Nat.cast_zero, zero_mul, add_zero] at h0
    simp [arange_empty _ _ _ _ h0]
  | succ m ih =>
    intro lo hi fuel hall hstop hfuel
    match fuel with
    | 0 => omega
    | n + 1 =>
      have h0 : lo < hi := by
        have := hall 0 (Nat.succ_pos m)
        simpa using this
      have hrec : arange (lo + st) hi st n
          = (List.range m).map (fun k : ℕ => (lo + st) + (k : α) * st) := by
        apply ih
        · intro k hk
          have := hall (k + 1) (by omega)
          push_cast at this ⊢
          ring_nf at this ⊢
          linarith
        · intro hc
          apply hstop
          push_cast at hc ⊢
          ring_nf at hc ⊢
          linarith
        · omega
      simp only [arange, if_pos h0, hrec, List.range_succ_eq_map, List.map_cons, List.map_map]
      congr 1
      · simp
      · apply List.map_congr_left
        intro k _
        simp only [Function.comp_apply]
        push_cast
        ring

lemma sum_map_div (l : List α) (s : α) : (l.map (fun v => v / s)).sum = l.sum / s := by
  induction l with
  | nil => simp
  | cons a t ih => simp [ih, add_div]

lemma mem_map3 (g : α → α → α → α) :
    ∀ (l1 l2 l3 : List α) (v : α), v ∈ map3 g l1 l2 l3 →
      ∃ a b c, a ∈ l1 ∧ b ∈ l2 ∧ c ∈ l3 ∧ v = g a b c := by
  intro l1
  induction l1 with
  | nil => intro l2 l3 v hv; simp at hv
  | cons a l1 ih =>
    intro l2 l3 v hv
    match l2, l3 with
    | [], _ => simp at hv
    | _ :: _, [] => simp at hv
    | b :: l2, c :: l3 =>
      rcases List.mem_cons.mp hv with h | h
      · exact ⟨a, b, c, List.mem_cons_self .., List.mem_cons_self .., List.mem_cons_self .., h⟩
      · obtain ⟨a', b', c', h1, h2, h3, h4⟩ := ih l2 l3 v h
        exact ⟨a', b', c', List.mem_cons_of_mem _ h1, List.mem_cons_of_mem _ h2,
          List.mem_cons_of_mem _ h3, h4⟩

lemma wherePreds_mem (c : ℕ × α × Dir) (X : List (List α)) :
    ∀ v ∈ wherePreds c X, v = 1 ∨ v = -1 := by
  intro v hv
  obtain ⟨u, _, hu⟩ := List.mem_map.mp hv
  rcases c with ⟨f, t, d⟩
  cases d <;> simp only [wherePredRow_gt, wherePredRow_lt] at hu <;>
    [skip; skip] <;> split at hu <;> simp [← hu]

lemma wherePreds_length (c : ℕ × α × Dir) (X : List (List α)) :
    (wherePreds c X).length = X.length := by
  simp [wherePreds, col]


set_option linter.unusedSectionVars false

/-! Characterisation of the brute-force search fold: the result of the fold is
either the unchanged initial state (when no candidate beats the initial
error), or the first candidate attaining the minimum error. -/

lemma foldl_selStep_chars (w : List α) (X : List (List α)) (y : List α) :
    ∀ (cs : List (ℕ × α × Dir)) (e : α) (b : Option (ℕ × α × Dir)),
      (List.foldl (selStep w X y) (e, b) cs = (e, b)
        ∧ ∀ c ∈ cs, e ≤ candErr w X y c)
      ∨ (∃ pre c post, cs = pre ++ c :: post
          ∧ List.foldl (selStep w X y) (e, b) cs = (candErr w X y c, some c)
          ∧ candErr w X y c < e
          ∧ (∀ p ∈ pre, candErr w X y c < candErr w X y p)
          ∧ (∀ q ∈ post, candErr w X y c ≤ candErr w X y q)) := by
  intro cs
  induction cs with
  | nil => intro e b; left; simp
  | cons c0 cs ih =>
    intro e b
    by_cases h : candErr w X y c0 < e
    · have hstep : selStep w X y (e, b) c0 = (candErr w X y c0, some c0) := by
        simp [selStep, if_pos h]
      rcases ih (candErr w X y c0) (some c0) with ⟨heq, hall⟩ |
        ⟨pre, c, post, hsplit, heq, hlt, hpre, hpost⟩
      · right
        refine ⟨[], c0, cs, by simp, ?_, h, by simp, hall⟩
        simpa [hstep] using heq
      · right
        refine ⟨c0 :: pre, c, post, by simp [hsplit], ?_, lt_trans hlt h, ?_, hpost⟩
        · simpa [hstep] using heq
        · intro p hp
          rcases List.mem_cons.mp hp with h' | h'
          · rw [h']; exact hlt
          · exact hpre p h'
    · have hstep : selStep w X y (e, b) c0 = (e, b) := by
        simp [selStep, if_neg h]
      rcases ih e b with ⟨heq, hall⟩ | ⟨pre, c, post, hsplit, heq, hlt, hpre, hpost⟩
      · left
        constructor
        · simpa [hstep] using heq
        · intro c hc
          rcases List.mem_cons.mp hc with h' | h'
          · rw [h']; exact not_lt.mp h
          · exact hall c h'
      · right
        refine ⟨c0 :: pre, c, post, by simp [hsplit], ?_, hlt, ?_, hpost⟩
        · simpa [hstep] using heq
        · intro p hp
          rcases List.mem_cons.mp hp with h' | h'
          · rw [h']; exact lt_of_lt_of_le hlt (not_lt.mp h)
          · exact hpre p h'

lemma best_decision_stump_spec (w : List α) (X : List (List α)) (y : List α)
    (fuel : ℕ) (s : ℕ × α × Dir)
    (hsel : best_decision_stump w X y fuel = some s) :
    ∃ pre post, stumpCandidates X fuel = pre ++ s :: post
      ∧ (∀ c ∈ stumpCandidates X fuel, candErr w X y s ≤ candErr w X y c)
      ∧ (∀ p ∈ pre, candErr w X y s < candErr w X y p) := by
  unfold best_decision_stump at hsel
  rcases foldl_selStep_chars w X y (stumpCandidates X fuel) ((X.length : α)) none with
    ⟨heq, _⟩ | ⟨pre, c, post, hsplit, heq, hlt, hpre, hpost⟩
  · rw [heq] at hsel
    simp at hsel
  · rw [heq] at hsel
    simp only [Option.some.injEq] at hsel
    subst hsel
    refine ⟨pre, post, hsplit, ?_, hpre⟩
    intro c' hc'
    rw [hsplit] at hc'
    rcases List.mem_append.mp hc' with h | h
    · exact le_of_lt (hpre c' h)
    · rcases List.mem_cons.mp h with h | h
      · rw [h]
      · exact hpost c' h

/-! Inversion of one boosting round. -/

lemma adaboostStep_inv (expa loga : α → α) (X : List (List α)) (y : List α)
    (fuel : ℕ) (w : List α) (c : ℕ × α × Dir) (a : α) (w' : List α)
    (h : adaboostStep expa loga X y fuel w = some (c, a, w')) :
    best_decision_stump w X y fuel = some c
    ∧ a = 1/2 * loga ((1 - dotNe w y (wherePreds c X)) / dotNe w y (wherePreds c X))
    ∧ w' = (map3 (fun wi yi pi => wi * expa (-1 * yi * a * pi)) w y (wherePreds c X)).map
        (fun v => v / (map3 (fun wi yi pi => wi * expa (-1 * yi * a * pi)) w y
          (wherePreds c X)).sum) := by
  cases hb : best_decision_stump w X y fuel with
  | none => rw [adaboostStep, hb] at h; simp at h
  | some c' =>
    rw [adaboostStep, hb] at h
    simp only [Option.map_some', Option.some.injEq, Prod.mk.injEq] at h
    obtain ⟨h1, h2, h3⟩ := h
    subst h1
    subst h2
    exact ⟨rfl, rfl, h3.symm⟩

/-! Weight-vector invariants. -/

lemma dotNe_nonneg (w : List α) : ∀ (t v : List α), (∀ x ∈ w, 0 ≤ x) → 0 ≤ dotNe w t v := by
  induction w with
  | nil => intro t v _; simp
  | cons a ws ih =>
    intro t v hw
    match t, v with
    | [], _ => simp
    | _ :: _, [] => simp
    | b :: ts, c :: vs =>
      simp only [dotNe_cons]
      have h1 : 0 ≤ a := hw a (by simp)
      have h2 : 0 ≤ dotNe ws ts vs := ih ts vs (fun x hx => hw x (by simp [hx]))
      have h3 : (0:α) ≤ a * (if b = c then 0 else 1) := by
        split
        · simp
        · simpa using h1
      linarith

lemma updVec_mem_nonneg (a : ℝ) (w y p : List ℝ) (hw : ∀ x ∈ w, 0 ≤ x) :
    ∀ v ∈ map3 (fun wi yi pi => wi * Real.exp (-1 * yi * a * pi)) w y p, 0 ≤ v := by
  intro v hv
  obtain ⟨wi, yi, pi, hwi, _, _, hv⟩ := mem_map3 _ _ _ _ v hv
  rw [hv]
  exact mul_nonneg (hw wi hwi) (Real.exp_pos _).le

lemma updVec_sum_pos (a : ℝ) : ∀ (w y p : List ℝ), (∀ x ∈ w, 0 ≤ x) →
    0 < dotNe w y p →
    0 < (map3 (fun wi yi pi => wi * Real.exp (-1 * yi * a * pi)) w y p).sum := by
  intro w
  induction w with
  | nil => intro y p _ hpos; simp at hpos
  | cons wi ws ih =>
    intro y p hw hpos
    match y, p with
    | [], _ => simp at hpos
    | _ :: _, [] => simp at hpos
    | yi :: ys, pi :: ps =>
      simp only [dotNe_cons] at hpos
      simp only [map3_cons, List.sum_cons]
      have hwi : 0 ≤ wi := hw wi (by simp)
      have hws : ∀ x ∈ ws, 0 ≤ x := fun x hx => hw x (by simp [hx])
      by_cases ht : 0 < dotNe ws ys ps
      · have htail := ih ys ps hws ht
        have hhead : 0 ≤ wi * Real.exp (-1 * yi * a * pi) :=
          mul_nonneg hwi (Real.exp_pos _).le
        linarith
      · have htail0 : dotNe ws ys ps = 0 :=
          le_antisymm (not_lt.mp ht) (dotNe_nonneg ws ys ps hws)
        rw [htail0] at hpos
        have hind : 0 < wi * (if yi = pi then (0:ℝ) else 1) := by linarith
        have hwipos : 0 < wi := by
          rcases lt_or_eq_of_le hwi with h | h
          · exact h
          · rw [← h] at hind; simp at hind
        have hhead : 0 < wi * Real.exp (-1 * yi * a * pi) :=
          mul_pos hwipos (Real.exp_pos _)
        have htsum : 0 ≤ (map3 (fun wi yi pi => wi * Real.exp (-1 * yi * a * pi)) ws ys ps).sum :=
          List.sum_nonneg (updVec_mem_nonneg a ws ys ps hws)
        linarith

lemma step_weights_nonneg (X : List (List ℝ)) (y w : List ℝ) (fuel : ℕ)
    (c : ℕ × ℝ × Dir) (a : ℝ) (w' : List ℝ)
    (hstep : adaboostStep Real.exp Real.log X y fuel w = some (c, a, w'))
    (hw : ∀ x ∈ w, 0 ≤ x) :
    ∀ x ∈ w', 0 ≤ x := by
  obtain ⟨_, _, hw'⟩ := adaboostStep_inv _ _ _ _ _ _ _ _ _ hstep
  rw [hw']
  intro x hx
  obtain ⟨v, hv, hx⟩ := List.mem_map.mp hx
  rw [← hx]
  have hvn : 0 ≤ v := updVec_mem_nonneg a w y (wherePreds c X) hw v hv
  have hS : 0 ≤ (map3 (fun wi yi pi => wi * Real.exp (-1 * yi * a * pi)) w y
      (wherePreds c X)).sum :=
    List.sum_nonneg (updVec_mem_nonneg a w y (wherePreds c X) hw)
  exact div_nonneg hvn hS

lemma step_weights_inv (X : List (List ℝ)) (y w : List ℝ) (fuel : ℕ)
    (c : ℕ × ℝ × Dir) (a : ℝ) (w' : List ℝ)
    (hstep : adaboostStep Real.exp Real.log X y fuel w = some (c, a, w'))
    (hw : ∀ x ∈ w, 0 ≤ x)
    (hem : 0 < dotNe w y (wherePreds c X)) :
    (∀ x ∈ w', 0 ≤ x) ∧ w'.sum = 1 := by
  refine ⟨step_weights_nonneg X y w fuel c a w' hstep hw, ?_⟩
  obtain ⟨_, _, hw'⟩ := adaboostStep_inv _ _ _ _ _ _ _ _ _ hstep
  rw [hw', sum_map_div]
  exact div_self (ne_of_gt (updVec_sum_pos a w y (wherePreds c X) hw hem))

lemma weightsAfter_nonneg (X : List (List ℝ)) (y : List ℝ) (fuel : ℕ) :
    ∀ (k : ℕ) (w : List ℝ), weightsAfter Real.exp Real.log X y fuel k = some w →
      ∀ x ∈ w, 0 ≤ x := by
  intro k
  induction k with
  | zero =>
    intro w h
    simp only [weightsAfter, stepIter, Option.some.injEq] at h
    rw [← h]
    intro x hx
    rw [List.eq_of_mem_replicate hx]
    positivity
  | succ k ih =>
    intro w h
    simp only [weightsAfter, stepIter] at h
    cases hu : stepIter Real.exp Real.log X y fuel (initW X.length) k with
    | none => rw [hu] at h; simp at h
    | some u =>
      rw [hu] at h
      simp only [Option.map_eq_some'] at h
      obtain ⟨r, hr, hw⟩ := h
      obtain ⟨c, a, w2⟩ := r
      have hun : ∀ x ∈ u, 0 ≤ x := ih u hu
      rw [← hw]
      exact step_weights_nonneg X y u fuel c a w2 hr hun

lemma emAfter_of_step (X : List (List ℝ)) (y : List ℝ) (fuel k : ℕ) (u : List ℝ)
    (c : ℕ × ℝ × Dir) (a : ℝ) (w' : List ℝ)
    (h1 : weightsAfter Real.exp Real.log X y fuel k = some u)
    (h2 : adaboostStep Real.exp Real.log X y fuel u = some (c, a, w')) :
    emAfter Real.exp Real.log X y fuel k = some (dotNe u y (wherePreds c X)) := by
  obtain ⟨hsel, _, _⟩ := adaboostStep_inv _ _ _ _ _ _ _ _ _ h2
  simp only [emAfter, h1, roundEm, hsel, Option.map_some']


/-! Exact form of the renormalised weight update. -/

lemma map_map3 (g : α → α) (f : α → α → α → α) :
    ∀ l1 l2 l3 : List α, (map3 f l1 l2 l3).map g
      = map3 (fun a b c => g (f a b c)) l1 l2 l3 := by
  intro l1
  induction l1 with
  | nil => intro l2 l3; simp
  | cons a l1 ih =>
    intro l2 l3
    match l2, l3 with
    | [], _ => simp
    | _ :: _, [] => simp
    | b :: l2, c :: l3 => simp [ih l2 l3]

lemma map3_congr_mem (f g : α → α → α → α) :
    ∀ l1 l2 l3 : List α,
      (∀ a ∈ l1, ∀ b ∈ l2, ∀ c ∈ l3, f a b c = g a b c) →
      map3 f l1 l2 l3 = map3 g l1 l2 l3 := by
  intro l1
  induction l1 with
  | nil => intro l2 l3 _; simp
  | cons a l1 ih =>
    intro l2 l3 h
    match l2, l3 with
    | [], _ => simp
    | _ :: _, [] => simp
    | b :: l2, c :: l3 =>
      simp only [map3_cons]
      congr 1
      · exact h a (by simp) b (by simp) c (by simp)
      · exact ih l2 l3 (fun a' ha' b' hb' c' hc' =>
          h a' (by simp [ha']) b' (by simp [hb']) c' (by simp [hc']))

lemma updVec_sum_eq (a : ℝ) : ∀ (w y p : List ℝ),
    y.length = w.length → p.length = w.length →
    (∀ v ∈ y, v = 1 ∨ v = -1) → (∀ v ∈ p, v = 1 ∨ v = -1) →
    (map3 (fun wi yi pi => wi * Real.exp (-1 * yi * a * pi)) w y p).sum
      = Real.exp (-a) * (w.sum - dotNe w y p) + Real.exp a * dotNe w y p := by
  intro w
  induction w with
  | nil =>
    intro y p hy hp _ _
    have hy0 : y = [] := List.eq_nil_of_length_eq_zero (by simpa using hy)
    have hp0 : p = [] := List.eq_nil_of_length_eq_zero (by simpa using hp)
    subst hy0
    subst hp0
    simp
  | cons wi ws ih =>
    intro y p hylen hplen hy hp
    match y, p with
    | [], _ => simp at hylen
    | _ :: _, [] => simp at hplen
    | yi :: ys, pi :: ps =>
      simp only [map3_cons, List.sum_cons, dotNe_cons]
      rw [ih ys ps (by simpa using hylen) (by simpa using hplen)
        (fun v hv => hy v (by simp [hv])) (fun v hv => hp v (by simp [hv]))]
      rcases hy yi (by simp) with hyi | hyi <;> rcases hp pi (by simp) with hpi | hpi <;>
        rw [hyi, hpi] <;> norm_num <;> ring

lemma step_char (X : List (List ℝ)) (y w : List ℝ) (fuel : ℕ) (c : ℕ × ℝ × Dir)
    (hsel : best_decision_stump w X y fuel = some c)
    (hsum : w.sum = 1)
    (hylen : y.length = w.length)
    (hplen : (wherePreds c X).length = w.length)
    (hy : ∀ v ∈ y, v = 1 ∨ v = -1)
    (h0 : 0 < dotNe w y (wherePreds c X))
    (h1 : dotNe w y (wherePreds c X) < 1) :
    adaboostStep Real.exp Real.log X y fuel w
      = some (c,
          1/2 * Real.log ((1 - dotNe w y (wherePreds c X)) / dotNe w y (wherePreds c X)),
          charUpdate (dotNe w y (wherePreds c X)) w y (wherePreds c X)) := by
  have hr : (0:ℝ) < (1 - dotNe w y (wherePreds c X)) / dotNe w y (wherePreds c X) :=
    div_pos (by linarith) h0
  have hE2 : Real.exp (1/2 * Real.log ((1 - dotNe w y (wherePreds c X)) / dotNe w y (wherePreds c X)))
        * Real.exp (1/2 * Real.log ((1 - dotNe w y (wherePreds c X)) / dotNe w y (wherePreds c X)))
      = (1 - dotNe w y (wherePreds c X)) / dotNe w y (wherePreds c X) := by
    rw [← Real.exp_add]
    have harg : 1/2 * Real.log ((1 - dotNe w y (wherePreds c X)) / dotNe w y (wherePreds c X))
          + 1/2 * Real.log ((1 - dotNe w y (wherePreds c X)) / dotNe w y (wherePreds c X))
        = Real.log ((1 - dotNe w y (wherePreds c X)) / dotNe w y (wherePreds c X)) := by ring
    rw [harg, Real.exp_log hr]
  set em := dotNe w y (wherePreds c X) with hemdef
  set a := 1/2 * Real.log ((1 - em) / em) with hadef
  have hEpos : 0 < Real.exp a := Real.exp_pos a
  have hSval : (map3 (fun wi yi pi => wi * Real.exp (-1 * yi * a * pi)) w y
        (wherePreds c X)).sum
      = Real.exp (-a) * (1 - em) + Real.exp a * em := by
    rw [updVec_sum_eq a w y (wherePreds c X) hylen hplen hy (wherePreds_mem c X), hsum]
  have hSpos : 0 < (map3 (fun wi yi pi => wi * Real.exp (-1 * yi * a * pi)) w y
      (wherePreds c X)).sum := by
    rw [hSval]
    have t1 : 0 < Real.exp (-a) * (1 - em) := mul_pos (Real.exp_pos _) (by linarith)
    have t2 : 0 < Real.exp a * em := mul_pos hEpos h0
    linarith
  have hne : Real.exp a ≠ 0 := ne_of_gt hEpos
  have hene : em ≠ 0 := ne_of_gt h0
  have h1em : (0:ℝ) < 1 - em := by linarith
  have hE2em : Real.exp a * Real.exp a * em = 1 - em := by
    rw [hE2]
    field_simp
  have hES : Real.exp a * (map3 (fun wi yi pi => wi * Real.exp (-1 * yi * a * pi)) w y
        (wherePreds c X)).sum
      = 2 * (1 - em) := by
    rw [hSval, Real.exp_neg, mul_add, ← mul_assoc, mul_inv_cancel₀ hne, one_mul,
      ← mul_assoc, hE2em]
    ring
  have hSeq : (map3 (fun wi yi pi => wi * Real.exp (-1 * yi * a * pi)) w y
        (wherePreds c X)).sum
      = 2 * (1 - em) / Real.exp a := by
    rw [eq_div_iff hne, mul_comm]
    exact hES
  have h2em : (0:ℝ) < 2 * em := by linarith
  have h2em' : (0:ℝ) < 2 * (1 - em) := by linarith
  have hupd : (map3 (fun wi yi pi => wi * Real.exp (-1 * yi * a * pi)) w y
        (wherePreds c X)).map
        (fun v => v / (map3 (fun wi yi pi => wi * Real.exp (-1 * yi * a * pi)) w y
          (wherePreds c X)).sum)
      = charUpdate em w y (wherePreds c X) := by
    rw [map_map3, charUpdate]
    apply map3_congr_mem
    intro wi _ yi hyi pi hpi
    rcases hy yi hyi with hyiv | hyiv <;> rcases wherePreds_mem c X pi hpi with hpiv | hpiv <;>
      rw [hyiv, hpiv, hSeq, div_div_eq_mul_div]
    · rw [if_pos rfl]
      have hnum : wi * Real.exp (-1 * 1 * a * 1) * Real.exp a = wi := by
        rw [show (-1:ℝ) * 1 * a * 1 = -a from by ring, Real.exp_neg, mul_assoc,
          inv_mul_cancel₀ hne, mul_one]
      rw [hnum]
    · rw [if_neg (by norm_num)]
      have hnum : wi * Real.exp (-1 * 1 * a * -1) * Real.exp a = wi * ((1 - em) / em) := by
        rw [show (-1:ℝ) * 1 * a * -1 = a from by ring, mul_assoc, hE2]
      rw [hnum, div_eq_div_iff (ne_of_gt h2em') (ne_of_gt h2em)]
      field_simp
      ring
    · rw [if_neg (by norm_num)]
      have hnum : wi * Real.exp (-1 * -1 * a * 1) * Real.exp a = wi * ((1 - em) / em) := by
        rw [show (-1:ℝ) * -1 * a * 1 = a from by ring, mul_assoc, hE2]
      rw [hnum, div_eq_div_iff (ne_of_gt h2em') (ne_of_gt h2em)]
      field_simp
      ring
    · rw [if_pos rfl]
      have hnum : wi * Real.exp (-1 * -1 * a * -1) * Real.exp a = wi := by
        rw [show (-1:ℝ) * -1 * a * -1 = -a from by ring, Real.exp_neg, mul_assoc,
          inv_mul_cancel₀ hne, mul_one]
      rw [hnum]
  rw [adaboostStep, hsel, Option.map_some']
  refine congrArg some ?_
  show (c, a, (map3 (fun wi yi pi => wi * Real.exp (-1 * yi * a * pi)) w y
      (wherePreds c X)).map
      (fun v => v / (map3 (fun wi yi pi => wi * Real.exp (-1 * yi * a * pi)) w y
        (wherePreds c X)).sum))
    = (c, a, charUpdate em w y (wherePreds c X))
  rw [hupd]


/-! Structure of the training loop. -/

lemma stepIter_succ_front (expa loga : α → α) (X : List (List α)) (y : List α)
    (fuel : ℕ) (w : List α) (k : ℕ) :
    stepIter expa loga X y fuel w (k + 1)
      = match adaboostStep expa loga X y fuel w with
        | none => none
        | some r => stepIter expa loga X y fuel r.2.2 k := by
  induction k with
  | zero => cases h : adaboostStep expa loga X y fuel w <;> simp [stepIter, h]
  | succ k ih =>
    conv_lhs => rw [stepIter]
    rw [ih]
    cases h : adaboostStep expa loga X y fuel w with
    | none => simp
    | some r =>
      simp only []
      conv_rhs => rw [stepIter]

lemma adaboostGo_spec (expa loga : α → α) (X : List (List α)) (y : List α) (fuel : ℕ) :
    ∀ (T : ℕ) (w : List α) (fs : List (ℕ × α × Dir)) (al : List α),
      adaboostGo expa loga X y fuel T w = some (fs, al) →
      fs.length = T ∧ al.length = T ∧
      ∀ t, t < T → ∃ u r, stepIter expa loga X y fuel w t = some u
        ∧ adaboostStep expa loga X y fuel u = some r
        ∧ fs.getD t (0, 0, Dir.gt) = r.1 ∧ al.getD t 0 = r.2.1 := by
  intro T
  induction T with
  | zero =>
    intro w fs al h
    simp only [adaboostGo, Option.some.injEq, Prod.mk.injEq] at h
    obtain ⟨h1, h2⟩ := h
    subst h1
    subst h2
    exact ⟨rfl, rfl, fun t ht => absurd ht (Nat.not_lt_zero t)⟩
  | succ T ih =>
    intro w fs al h
    simp only [adaboostGo] at h
    cases hs : adaboostStep expa loga X y fuel w with
    | none => rw [hs] at h; simp at h
    | some r =>
      rw [hs] at h
      replace h : (match adaboostGo expa loga X y fuel T r.2.2 with
          | none => none
          | some p => some (r.1 :: p.1, r.2.1 :: p.2)) = some (fs, al) := h
      cases hg : adaboostGo expa loga X y fuel T r.2.2 with
      | none => rw [hg] at h; simp at h
      | some p =>
        rw [hg] at h
        simp only [Option.some.injEq, Prod.mk.injEq] at h
        obtain ⟨h1, h2⟩ := h
        subst h1
        subst h2
        obtain ⟨hl1, hl2, hrec⟩ := ih r.2.2 p.1 p.2 (by rw [hg])
        refine ⟨by simp [hl1], by simp [hl2], ?_⟩
        intro t ht
        cases t with
        | zero => exact ⟨w, r, by simp [stepIter], hs, by simp, by simp⟩
        | succ t =>
          obtain ⟨u, r', hu, hr', hf, ha⟩ := hrec t (by omega)
          refine ⟨u, r', ?_, hr', by simpa using hf, by simpa using ha⟩
          rw [stepIter_succ_front, hs]
          exact hu

/-! Empty threshold sweeps. -/

lemma stumpCandidates_empty (X : List (List α)) (fuel : ℕ)
    (h : ∀ f, f < (X.headD []).length →
      listMax (col X f) - 5/1000 ≤ listMin (col X f) + 5/1000) :
    stumpCandidates X fuel = [] := by
  rw [stumpCandidates]
  rw [List.flatMap_eq_nil_iff]
  intro f hf
  rw [gridThresholds, arange_empty _ _ _ _ (not_lt.mpr (h f (List.mem_range.mp hf)))]
  rfl

/-! Agreement of the inline predictions with the sign-based stump evaluator
away from the decision boundary. -/

lemma wherePreds_eq_stump (X : List (List α)) (f : ℕ) (t : α) (d : Dir)
    (h : ∀ v ∈ col X f, v ≠ t) :
    wherePreds (f, t, d) X = stump_classification_result f t d X := by
  cases d
  · simp only [wherePreds, stump_gt]
    apply List.map_congr_left
    intro v hv
    rcases lt_trichotomy v t with hlt | heq | hgt
    · rw [wherePredRow_gt, if_neg (by linarith), sgn, if_neg (by linarith),
        if_pos (by linarith)]
    · exact absurd heq (h v hv)
    · rw [wherePredRow_gt, if_pos hgt, sgn, if_pos (by linarith)]
  · simp only [wherePreds, stump_lt]
    apply List.map_congr_left
    intro v hv
    rcases lt_trichotomy v t with hlt | heq | hgt
    · rw [wherePredRow_lt, if_pos hlt, sgn, if_pos (by linarith)]
    · exact absurd heq (h v hv)
    · rw [wherePredRow_lt, if_neg (by linarith), sgn, if_neg (by linarith),
        if_pos (by linarith)]


/-! Concrete evaluation on the end-to-end dataset. -/

set_option maxHeartbeats 4000000
set_option maxRecDepth 100000

lemma adaboostGo_zero_eval (expa loga : α → α) (X : List (List α)) (y : List α)
    (fuel : ℕ) (w : List α) :
    adaboostGo expa loga X y fuel 0 w = some ([], []) := rfl

lemma adaboostGo_succ_eval {expa loga : α → α} {X : List (List α)} {y : List α}
    {fuel k : ℕ} {w w' : List α} {c : ℕ × α × Dir} {a : α}
    {fs : List (ℕ × α × Dir)} {al : List α}
    (hstep : adaboostStep expa loga X y fuel w = some (c, a, w'))
    (hrest : adaboostGo expa loga X y fuel k w' = some (fs, al)) :
    adaboostGo expa loga X y fuel (k + 1) w = some (c :: fs, a :: al) := by
  show (match adaboostStep expa loga X y fuel w with
    | none => none
    | some r =>
      match adaboostGo expa loga X y fuel k r.2.2 with
      | none => none
      | some p => some (r.1 :: p.1, r.2.1 :: p.2)) = some (c :: fs, a :: al)
  rw [hstep]
  show (match adaboostGo expa loga X y fuel k w' with
    | none => none
    | some p => some (c :: p.1, a :: p.2)) = some (c :: fs, a :: al)
  rw [hrest]

lemma range34_eval : List.range 34
    = [0,1,2,3,4,5,6,7,8,9,10,11,12,13,14,15,16,17,18,19,20,21,22,23,24,25,
       26,27,28,29,30,31,32,33] := by decide

lemma range4_eval : List.range 4 = [0,1,2,3] := by decide

lemma grid0_eval : gridThresholds (Xdata (α := ℝ)) 100 0
    = (List.range 34).map (fun k : ℕ => 21/200 + (k : ℝ) * (1/100)) := by
  have hmin : listMin (col (Xdata (α := ℝ)) 0) = 1/10 := by
    norm_num [listMin, col, Xdata, List.getD, min_def]
  have hmax : listMax (col (Xdata (α := ℝ)) 0) = 45/100 := by
    norm_num [listMax, col, Xdata, List.getD, max_def]
  rw [gridThresholds, hmin, hmax]
  rw [show (1:ℝ)/10 + 5/1000 = 21/200 from by norm_num]
  apply arange_eq_map
  · intro k hk
    have hk' : (k : ℝ) < 34 := by exact_mod_cast hk
    nlinarith
  · push_cast
    norm_num
  · omega

lemma grid1_eval : gridThresholds (Xdata (α := ℝ)) 100 1
    = (List.range 4).map (fun k : ℕ => 31/200 + (k : ℝ) * (1/100)) := by
  have hmin : listMin (col (Xdata (α := ℝ)) 1) = 15/100 := by
    norm_num [listMin, col, Xdata, List.getD, min_def]
  have hmax : listMax (col (Xdata (α := ℝ)) 1) = 20/100 := by
    norm_num [listMax, col, Xdata, List.getD, max_def]
  rw [gridThresholds, hmin, hmax]
  rw [show (15:ℝ)/100 + 5/1000 = 31/200 from by norm_num]
  apply arange_eq_map
  · intro k hk
    have hk' : (k : ℝ) < 4 := by exact_mod_cast hk
    nlinarith
  · push_cast
    norm_num
  · omega

lemma sel1_eval :
    best_decision_stump (initW 7) (Xdata (α := ℝ)) ydata 100
      = some (0, 41/200, Dir.lt) := by
  rw [best_decision_stump, stumpCandidates]
  rw [show ((Xdata (α := ℝ)).headD []).length = 2 from by norm_num [Xdata]]
  rw [show List.range 2 = [0, 1] from by decide]
  simp only [List.flatMap_cons, List.flatMap_nil, List.append_nil]
  rw [grid0_eval, grid1_eval, range34_eval, range4_eval]
  norm_num [selStep, candErr, col, sgn, Xdata, ydata, List.getD, initW, List.replicate]

lemma sel2_eval :
    best_decision_stump ([1/2, 1/12, 1/12, 1/12, 1/12, 1/12, 1/12] : List ℝ)
      (Xdata (α := ℝ)) ydata 100
      = some (1, 37/200, Dir.lt) := by
  rw [best_decision_stump, stumpCandidates]
  rw [show ((Xdata (α := ℝ)).headD []).length = 2 from by norm_num [Xdata]]
  rw [show List.range 2 = [0, 1] from by decide]
  simp only [List.flatMap_cons, List.flatMap_nil, List.append_nil]
  rw [grid0_eval, grid1_eval, range34_eval, range4_eval]
  norm_num [selStep, candErr, col, sgn, Xdata, ydata, List.getD]

lemma sel3_eval :
    best_decision_stump ([3/11, 1/22, 1/22, 1/2, 1/22, 1/22, 1/22] : List ℝ)
      (Xdata (α := ℝ)) ydata 100
      = some (1, 31/200, Dir.lt) := by
  rw [best_decision_stump, stumpCandidates]
  rw [show ((Xdata (α := ℝ)).headD []).length = 2 from by norm_num [Xdata]]
  rw [show List.range 2 = [0, 1] from by decide]
  simp only [List.flatMap_cons, List.flatMap_nil, List.append_nil]
  rw [grid0_eval, grid1_eval, range34_eval, range4_eval]
  norm_num [selStep, candErr, col, sgn, Xdata, ydata, List.getD]

lemma preds1_eval : wherePreds (0, 41/200, Dir.lt) (Xdata (α := ℝ))
    = [-1, 1, 1, -1, 1, -1, -1] := by
  norm_num [wherePreds, col, Xdata, List.getD]

lemma preds2_eval : wherePreds (1, 37/200, Dir.lt) (Xdata (α := ℝ))
    = [1, 1, 1, 1, 1, -1, -1] := by
  norm_num [wherePreds, col, Xdata, List.getD]

lemma preds3_eval : wherePreds (1, 31/200, Dir.lt) (Xdata (α := ℝ))
    = [1, 1, -1, -1, -1, -1, -1] := by
  norm_num [wherePreds, col, Xdata, List.getD]

lemma ydata_pm : ∀ v ∈ (ydata : List ℝ), v = 1 ∨ v = -1 := by
  intro v hv
  fin_cases hv <;> norm_num

lemma step1_eval : adaboostStep Real.exp Real.log (Xdata (α := ℝ)) ydata 100 (initW 7)
    = some ((0, 41/200, Dir.lt), 1/2 * Real.log 6,
        [1/2, 1/12, 1/12, 1/12, 1/12, 1/12, 1/12]) := by
  have hem : dotNe (initW 7) (ydata : List ℝ) (wherePreds (0, 41/200, Dir.lt) Xdata)
      = 1/7 := by
    rw [preds1_eval]
    norm_num [initW, List.replicate, ydata]
  have h := step_char (Xdata (α := ℝ)) ydata (initW 7) 100 (0, 41/200, Dir.lt) sel1_eval
    (by norm_num [initW, List.replicate])
    (by norm_num [initW, List.replicate, ydata])
    (by rw [preds1_eval]; norm_num [initW, List.replicate])
    ydata_pm
    (by rw [hem]; norm_num)
    (by rw [hem]; norm_num)
  rw [hem] at h
  rw [show ((1:ℝ) - 1/7) / (1/7) = 6 from by norm_num] at h
  rw [preds1_eval] at h
  rw [show charUpdate (1/7 : ℝ) (initW 7) ydata [-1, 1, 1, -1, 1, -1, -1]
      = [1/2, 1/12, 1/12, 1/12, 1/12, 1/12, 1/12] from by
    norm_num [charUpdate, initW, List.replicate, ydata]] at h
  exact h

lemma step2_eval : adaboostStep Real.exp Real.log (Xdata (α := ℝ)) ydata 100
    ([1/2, 1/12, 1/12, 1/12, 1/12, 1/12, 1/12] : List ℝ)
    = some ((1, 37/200, Dir.lt), 1/2 * Real.log 11,
        [3/11, 1/22, 1/22, 1/2, 1/22, 1/22, 1/22]) := by
  have hem : dotNe ([1/2, 1/12, 1/12, 1/12, 1/12, 1/12, 1/12] : List ℝ) ydata
      (wherePreds (1, 37/200, Dir.lt) Xdata) = 1/12 := by
    rw [preds2_eval]
    norm_num [ydata]
  have h := step_char (Xdata (α := ℝ)) ydata
    ([1/2, 1/12, 1/12, 1/12, 1/12, 1/12, 1/12] : List ℝ) 100 (1, 37/200, Dir.lt) sel2_eval
    (by norm_num)
    (by norm_num [ydata])
    (by rw [preds2_eval]; norm_num)
    ydata_pm
    (by rw [hem]; norm_num)
    (by rw [hem]; norm_num)
  rw [hem] at h
  rw [show ((1:ℝ) - 1/12) / (1/12) = 11 from by norm_num] at h
  rw [preds2_eval] at h
  rw [show charUpdate (1/12 : ℝ) ([1/2, 1/12, 1/12, 1/12, 1/12, 1/12, 1/12] : List ℝ)
      ydata [1, 1, 1, 1, 1, -1, -1]
      = [3/11, 1/22, 1/22, 1/2, 1/22, 1/22, 1/22] from by
    norm_num [charUpdate, ydata]] at h
  exact h

lemma step3_eval : adaboostStep Real.exp Real.log (Xdata (α := ℝ)) ydata 100
    ([3/11, 1/22, 1/22, 1/2, 1/22, 1/22, 1/22] : List ℝ)
    = some ((1, 31/200, Dir.lt), 1/2 * Real.log 10,
        charUpdate (1/11 : ℝ) ([3/11, 1/22, 1/22, 1/2, 1/22, 1/22, 1/22] : List ℝ)
          ydata [1, 1, -1, -1, -1, -1, -1]) := by
  have hem : dotNe ([3/11, 1/22, 1/22, 1/2, 1/22, 1/22, 1/22] : List ℝ) ydata
      (wherePreds (1, 31/200, Dir.lt) Xdata) = 1/11 := by
    rw [preds3_eval]
    norm_num [ydata]
  have h := step_char (Xdata (α := ℝ)) ydata
    ([3/11, 1/22, 1/22, 1/2, 1/22, 1/22, 1/22] : List ℝ) 100 (1, 31/200, Dir.lt) sel3_eval
    (by norm_num)
    (by norm_num [ydata])
    (by rw [preds3_eval]; norm_num)
    ydata_pm
    (by rw [hem]; norm_num)
    (by rw [hem]; norm_num)
  rw [hem] at h
  rw [show ((1:ℝ) - 1/11) / (1/11) = 10 from by norm_num] at h
  rw [preds3_eval] at h
  exact h

lemma run3_eval : adaboost Real.exp Real.log (Xdata (α := ℝ)) ydata 100 3
    = some ([(0, 41/200, Dir.lt), (1, 37/200, Dir.lt), (1, 31/200, Dir.lt)],
        [1/2 * Real.log 6, 1/2 * Real.log 11, 1/2 * Real.log 10]) := by
  rw [adaboost, show (Xdata (α := ℝ)).length = 7 from by norm_num [Xdata]]
  exact adaboostGo_succ_eval step1_eval
    (adaboostGo_succ_eval step2_eval (adaboostGo_succ_eval step3_eval rfl))


/-! Concrete evaluation on the small datasets. -/

lemma gridSep_eval : gridThresholds (Xsep (α := ℝ)) 100 0 = [1/200] := by
  have hmin : listMin (col (Xsep (α := ℝ)) 0) = 0 := by
    norm_num [listMin, col, Xsep, List.getD, min_def]
  have hmax : listMax (col (Xsep (α := ℝ)) 0) = 2/100 := by
    norm_num [listMax, col, Xsep, List.getD, max_def]
  rw [gridThresholds, hmin, hmax]
  rw [show (0:ℝ) + 5/1000 = 1/200 from by norm_num]
  rw [show ([(1/200 : ℝ)]) = (List.range 1).map (fun k : ℕ => 1/200 + (k:ℝ) * (1/100))
    from by rw [show List.range 1 = [0] from by decide]; norm_num]
  apply arange_eq_map
  · intro k hk
    have hk0 : k = 0 := by omega
    subst hk0
    norm_num
  · push_cast
    norm_num
  · omega

lemma gridDeg_eval : gridThresholds (Xdeg (α := ℝ)) 100 0 = [5/1000] := by
  have hmin : listMin (col (Xdeg (α := ℝ)) 0) = 0 := by
    norm_num [listMin, col, Xdeg, List.getD, min_def]
  have hmax : listMax (col (Xdeg (α := ℝ)) 0) = 12/1000 := by
    norm_num [listMax, col, Xdeg, List.getD, max_def]
  rw [gridThresholds, hmin, hmax]
  rw [show (0:ℝ) + 5/1000 = 5/1000 from by norm_num]
  rw [show ([(5/1000 : ℝ)]) = (List.range 1).map (fun k : ℕ => 5/1000 + (k:ℝ) * (1/100))
    from by rw [show List.range 1 = [0] from by decide]; norm_num]
  apply arange_eq_map
  · intro k hk
    have hk0 : k = 0 := by omega
    subst hk0
    norm_num
  · push_cast
    norm_num
  · omega

lemma selSepTwo_eval : best_decision_stump (initW 2) (Xsep (α := ℝ)) ytwo 100
    = some (0, 1/200, Dir.gt) := by
  rw [best_decision_stump, stumpCandidates]
  rw [show ((Xsep (α := ℝ)).headD []).length = 1 from by norm_num [Xsep]]
  rw [show List.range 1 = [0] from by decide]
  simp only [List.flatMap_cons, List.flatMap_nil, List.append_nil]
  rw [gridSep_eval]
  norm_num [selStep, candErr, col, sgn, Xsep, ytwo, List.getD, initW, List.replicate]

lemma selSepSep_eval : best_decision_stump (initW 2) (Xsep (α := ℝ)) ysep 100
    = some (0, 1/200, Dir.gt) := by
  rw [best_decision_stump, stumpCandidates]
  rw [show ((Xsep (α := ℝ)).headD []).length = 1 from by norm_num [Xsep]]
  rw [show List.range 1 = [0] from by decide]
  simp only [List.flatMap_cons, List.flatMap_nil, List.append_nil]
  rw [gridSep_eval]
  norm_num [selStep, candErr, col, sgn, Xsep, ysep, List.getD, initW, List.replicate]

lemma selDeg_eval : best_decision_stump (initW 3) (Xdeg (α := ℝ)) ydeg 100
    = some (0, 5/1000, Dir.gt) := by
  rw [best_decision_stump, stumpCandidates]
  rw [show ((Xdeg (α := ℝ)).headD []).length = 1 from by norm_num [Xdeg]]
  rw [show List.range 1 = [0] from by decide]
  simp only [List.flatMap_cons, List.flatMap_nil, List.append_nil]
  rw [gridDeg_eval]
  norm_num [selStep, candErr, col, sgn, Xdeg, ydeg, List.getD, initW, List.replicate]

lemma predsSep_eval : wherePreds (0, 1/200, Dir.gt) (Xsep (α := ℝ)) = [-1, 1] := by
  norm_num [wherePreds, col, Xsep, List.getD]

lemma predsDeg_eval : wherePreds (0, 5/1000, Dir.gt) (Xdeg (α := ℝ)) = [-1, -1, 1] := by
  norm_num [wherePreds, col, Xdeg, List.getD]

lemma stepSep_eval : adaboostStep Real.exp Real.log (Xsep (α := ℝ)) ytwo 100 (initW 2)
    = some ((0, 1/200, Dir.gt), 1/2 * Real.log 1, [1/2, 1/2]) := by
  have hem : dotNe (initW 2) (ytwo : List ℝ) (wherePreds (0, 1/200, Dir.gt) Xsep)
      = 1/2 := by
    rw [predsSep_eval]
    norm_num [initW, List.replicate, ytwo]
  have h := step_char (Xsep (α := ℝ)) ytwo (initW 2) 100 (0, 1/200, Dir.gt) selSepTwo_eval
    (by norm_num [initW, List.replicate])
    (by norm_num [initW, List.replicate, ytwo])
    (by rw [predsSep_eval]; norm_num [initW, List.replicate])
    (by intro v hv; fin_cases hv <;> norm_num)
    (by rw [hem]; norm_num)
    (by rw [hem]; norm_num)
  rw [hem] at h
  rw [show ((1:ℝ) - 1/2) / (1/2) = 1 from by norm_num] at h
  rw [predsSep_eval] at h
  rw [show charUpdate (1/2 : ℝ) (initW 2) ytwo [-1, 1] = [1/2, 1/2] from by
    norm_num [charUpdate, initW, List.replicate, ytwo]] at h
  exact h

lemma stepDeg_eval : adaboostStep Real.exp Real.log (Xdeg (α := ℝ)) ydeg 100 (initW 3)
    = some ((0, 5/1000, Dir.gt), 1/2 * Real.log (1/2), [1/2, 1/4, 1/4]) := by
  have hem : dotNe (initW 3) (ydeg : List ℝ) (wherePreds (0, 5/1000, Dir.gt) Xdeg)
      = 2/3 := by
    rw [predsDeg_eval]
    norm_num [initW, List.replicate, ydeg]
  have h := step_char (Xdeg (α := ℝ)) ydeg (initW 3) 100 (0, 5/1000, Dir.gt) selDeg_eval
    (by norm_num [initW, List.replicate])
    (by norm_num [initW, List.replicate, ydeg])
    (by rw [predsDeg_eval]; norm_num [initW, List.replicate])
    (by intro v hv; fin_cases hv <;> norm_num)
    (by rw [hem]; norm_num)
    (by rw [hem]; norm_num)
  rw [hem] at h
  rw [show ((1:ℝ) - 2/3) / (2/3) = 1/2 from by norm_num] at h
  rw [predsDeg_eval] at h
  rw [show charUpdate (2/3 : ℝ) (initW 3) ydeg [-1, -1, 1] = [1/2, 1/4, 1/4] from by
    norm_num [charUpdate, initW, List.replicate, ydeg]] at h
  exact h

lemma emSepSep_eval : emAfter Real.exp Real.log (Xsep (α := ℝ)) ysep 100 0 = some 0 := by
  have hw : weightsAfter Real.exp Real.log (Xsep (α := ℝ)) ysep 100 0 = some (initW 2) := by
    rw [weightsAfter, show (Xsep (α := ℝ)).length = 2 from by norm_num [Xsep]]
    rfl
  rw [emAfter, hw]
  show roundEm (Xsep (α := ℝ)) ysep 100 (initW 2) = some 0
  rw [roundEm, selSepSep_eval, Option.map_some', predsSep_eval]
  norm_num [initW, List.replicate, ysep]

lemma emSepTwo_eval : emAfter Real.exp Real.log (Xsep (α := ℝ)) ytwo 100 0
    = some (1/2) := by
  have hw : weightsAfter Real.exp Real.log (Xsep (α := ℝ)) ytwo 100 0 = some (initW 2) := by
    rw [weightsAfter, show (Xsep (α := ℝ)).length = 2 from by norm_num [Xsep]]
    rfl
  rw [emAfter, hw]
  show roundEm (Xsep (α := ℝ)) ytwo 100 (initW 2) = some (1/2)
  rw [roundEm, selSepTwo_eval, Option.map_some', predsSep_eval]
  norm_num [initW, List.replicate, ytwo]

lemma waSepTwo_eval : weightsAfter Real.exp Real.log (Xsep (α := ℝ)) ytwo 100 1
    = some [1/2, 1/2] := by
  rw [weightsAfter, show (Xsep (α := ℝ)).length = 2 from by norm_num [Xsep]]
  rw [show stepIter Real.exp Real.log (Xsep (α := ℝ)) ytwo 100 (initW 2) 1
      = (adaboostStep Real.exp Real.log (Xsep (α := ℝ)) ytwo 100 (initW 2)).map
          (fun r => r.2.2) from rfl]
  rw [stepSep_eval, Option.map_some']

lemma run1Sep_eval : adaboost Real.exp Real.log (Xsep (α := ℝ)) ytwo 100 1
    = some ([(0, 1/200, Dir.gt)], [1/2 * Real.log 1]) := by
  rw [adaboost, show (Xsep (α := ℝ)).length = 2 from by norm_num [Xsep]]
  exact adaboostGo_succ_eval stepSep_eval rfl

/-! Bounds on the logarithms appearing in the trained alpha vector. -/

lemma one_lt_log_six : (1:ℝ) < Real.log 6 := by
  rw [Real.lt_log_iff_exp_lt (by norm_num : (0:ℝ) < 6)]
  have h := Real.exp_one_lt_d9
  linarith

lemma one_lt_log_ten : (1:ℝ) < Real.log 10 := by
  rw [Real.lt_log_iff_exp_lt (by norm_num : (0:ℝ) < 10)]
  have h := Real.exp_one_lt_d9
  linarith

lemma one_lt_log_eleven : (1:ℝ) < Real.log 11 := by
  rw [Real.lt_log_iff_exp_lt (by norm_num : (0:ℝ) < 11)]
  have h := Real.exp_one_lt_d9
  linarith

lemma log_six_lt_log_eleven : Real.log 6 < Real.log 11 :=
  Real.log_lt_log (by norm_num) (by norm_num)

lemma log_ten_lt_log_eleven : Real.log 10 < Real.log 11 :=
  Real.log_lt_log (by norm_num) (by norm_num)

lemma log_sharp_bound : Real.log 6 + Real.log 10 - Real.log 11 < 2 := by
  have h60 : Real.log 6 + Real.log 10 = Real.log 60 := by
    rw [← Real.log_mul (by norm_num) (by norm_num)]
    norm_num
  have hdiv : Real.log 60 - Real.log 11 = Real.log (60/11) :=
    (Real.log_div (by norm_num) (by norm_num)).symm
  have hexp2 : (60:ℝ)/11 < Real.exp 2 := by
    have he := Real.exp_one_gt_d9
    have h2 : Real.exp 2 = Real.exp 1 * Real.exp 1 := by
      rw [← Real.exp_add]
      norm_num
    rw [h2]
    nlinarith
  have hlt : Real.log (60/11) < 2 := by
    have hx : Real.exp (Real.log ((60:ℝ)/11)) < Real.exp 2 := by
      rw [Real.exp_log (by norm_num : (0:ℝ) < 60/11)]
      exact hexp2
    exact Real.exp_lt_exp.mp hx
  rw [h60, hdiv]
  exact hlt

/-! Evaluation of classify on the trained ensemble. -/

lemma houtC8 :
    accumVotes (([(0, 41/200, Dir.lt), (1, 37/200, Dir.lt), (1, 31/200, Dir.lt)]
        : List (ℕ × ℝ × Dir)).zip
        [1/2 * Real.log 6, 1/2 * Real.log 11, 1/2 * Real.log 10])
      (Xdata (α := ℝ)) ((Xdata (α := ℝ)).map (fun _ => 1))
    = [1 - Real.log 6 / 2 + Real.log 11 / 2 + Real.log 10 / 2,
       1 + Real.log 6 / 2 + Real.log 11 / 2 + Real.log 10 / 2,
       1 + Real.log 6 / 2 + Real.log 11 / 2 - Real.log 10 / 2,
       1 - Real.log 6 / 2 + Real.log 11 / 2 - Real.log 10 / 2,
       1 + Real.log 6 / 2 + Real.log 11 / 2 - Real.log 10 / 2,
       1 - Real.log 6 / 2 - Real.log 11 / 2 - Real.log 10 / 2,
       1 - Real.log 6 / 2 - Real.log 11 / 2 - Real.log 10 / 2] := by
  rw [show ((Xdata (α := ℝ)).map (fun _ => (1:ℝ)))
      = [1, 1, 1, 1, 1, 1, 1] from by norm_num [Xdata]]
  simp only [accumVotes, List.zip_cons_cons, List.zip_nil_right, List.zip_nil_left,
    List.foldl_cons, List.foldl_nil, preds1_eval, preds2_eval, preds3_eval,
    List.zipWith_cons_cons, List.zipWith_nil_right, List.zipWith_nil_left,
    List.cons.injEq, and_true]
  refine ⟨by ring, by ring, by ring, by ring, by ring, by ring, by ring⟩

lemma classifyC8_eval :
    classify ([(0, 41/200, Dir.lt), (1, 37/200, Dir.lt), (1, 31/200, Dir.lt)]
        : List (ℕ × ℝ × Dir))
      [1/2 * Real.log 6, 1/2 * Real.log 11, 1/2 * Real.log 10] (Xdata (α := ℝ))
    = [1, 1, 1, 1, 1, -1, -1] := by
  have h6 := one_lt_log_six
  have h10 := one_lt_log_ten
  have h11 := one_lt_log_eleven
  have h611 := log_six_lt_log_eleven
  have h1011 := log_ten_lt_log_eleven
  have hsharp := log_sharp_bound
  have hl6 : (0:ℝ) < Real.log 6 := by linarith
  rw [classify, houtC8]
  simp only [List.map_cons, List.map_nil]
  rw [if_pos (by linarith : (0:ℝ) < 1 - Real.log 6 / 2 + Real.log 11 / 2 + Real.log 10 / 2),
    if_pos (by linarith : (0:ℝ) < 1 + Real.log 6 / 2 + Real.log 11 / 2 + Real.log 10 / 2),
    if_pos (by linarith : (0:ℝ) < 1 + Real.log 6 / 2 + Real.log 11 / 2 - Real.log 10 / 2),
    if_pos (by linarith : (0:ℝ) < 1 - Real.log 6 / 2 + Real.log 11 / 2 - Real.log 10 / 2),
    if_neg (by push_neg; nlinarith :
      ¬ (0:ℝ) < 1 - Real.log 6 / 2 - Real.log 11 / 2 - Real.log 10 / 2)]


lemma map3_getD (g : α → α → α → α) :
    ∀ (l1 l2 l3 : List α) (i : ℕ), i < l1.length → i < l2.length → i < l3.length →
      (map3 g l1 l2 l3).getD i 0 = g (l1.getD i 0) (l2.getD i 0) (l3.getD i 0) := by
  intro l1
  induction l1 with
  | nil => intro l2 l3 i h1 _ _; simp at h1
  | cons a l1 ih =>
    intro l2 l3 i h1 h2 h3
    match l2, l3 with
    | [], _ => simp at h2
    | _ :: _, [] => simp at h3
    | b :: l2, c :: l3 =>
      cases i with
      | zero => simp
      | succ i =>
        simp only [map3_cons, List.getD_cons_succ]
        exact ih l2 l3 i (by simpa using h1) (by simpa using h2) (by simpa using h3)

/-! The claims. -/

/-- C1: the claim states that classify outputs, per example, the sign of
F(x) = sum over (stump, alpha) pairs of alpha times the stump prediction,
with a fixed tie-break label at F(x) = 0.  The code initialises the vote
accumulator to np.ones(n) (hw2_q5.py line 106), so it returns the sign of
1 + F(x).  On the one-stump ensemble below, F(x) = -1/2 is negative, so every
sign convention outputs -1, yet classify outputs +1. -/
theorem c1_classify_offset_bug :
    classify ([(0, 1/2, Dir.gt)] : List (ℕ × ℝ × Dir)) [1/2] [[0]] = [1]
    ∧ specScores ([(0, 1/2, Dir.gt)] : List (ℕ × ℝ × Dir)) [1/2] [[0]] = [-(1/2)]
    ∧ (-(1/2) : ℝ) < 0 := by
  refine ⟨?_, ?_, by norm_num⟩
  · norm_num [classify, accumVotes, wherePreds, col, List.getD, List.zip_cons_cons,
      List.zipWith_cons_cons]
  · norm_num [specScores, accumVotes, wherePreds, col, List.getD, List.zip_cons_cons,
      List.zipWith_cons_cons]

/-- C2: the claim states that training special-cases a weighted error em of
exactly 0 or 1 so that the confidence-weight formula is never reached on a
degenerate input.  The code has no such guard (hw2_q5.py lines 83-84): on the
perfectly separable dataset Xsep with labels ysep, round 0 computes em = 0 and
the round still goes through the formula 0.5 * log((1 - em) / em), a division
by zero in numpy. -/
theorem c2_em_zero_reached :
    emAfter Real.exp Real.log (Xsep (α := ℝ)) ysep 100 0 = some 0
    ∧ (adaboostStep Real.exp Real.log (Xsep (α := ℝ)) ysep 100 (initW 2)).isSome
        = true := by
  refine ⟨emSepSep_eval, ?_⟩
  rw [adaboostStep, selSepSep_eval]
  rfl

/-- C3: the claim states that the loss operation returns the vector of
per-example values exp(-y i * F(x i)).  The code (hw2_q5.py lines 119-142)
has no return statement, so it returns None, and the array it prints uses the
ones-initialised accumulator, hence equals exp(-y i * (1 + F(x i))).  On the
input below the printed value is exp(-1/2) while the specified value is
exp(1/2), and the two differ. -/
theorem c3_loss_bug :
    (loss Real.exp ([(0, 1/2, Dir.gt)] : List (ℕ × ℝ × Dir)) [1/2] [[0]] [1]).1 = none
    ∧ (loss Real.exp ([(0, 1/2, Dir.gt)] : List (ℕ × ℝ × Dir)) [1/2] [[0]] [1]).2
        = [Real.exp (-(1/2))]
    ∧ specMargin Real.exp ([(0, 1/2, Dir.gt)] : List (ℕ × ℝ × Dir)) [1/2] [[0]] [1]
        = [Real.exp (1/2)]
    ∧ Real.exp (-(1/2)) ≠ Real.exp (1/2) := by
  refine ⟨rfl, ?_, ?_, ne_of_lt (Real.exp_lt_exp.mpr (by norm_num))⟩
  · norm_num [loss, accumVotes, wherePreds, col, List.getD, List.zip_cons_cons,
      List.zipWith_cons_cons]
  · norm_num [specMargin, specScores, accumVotes, wherePreds, col, List.getD,
      List.zip_cons_cons, List.zipWith_cons_cons]

/-- C4: for every weight vector with nonnegative entries summing to 1, a stump
returned by best_decision_stump attains a weighted error no larger than every
candidate of the search grid, and it is the first such candidate in
enumeration order (features in increasing order, then thresholds in sweep
order, then ">" before "<", which is the order of stumpCandidates): every
candidate strictly before it has strictly larger error. -/
theorem c4_selector_minimal (w : List ℝ) (X : List (List ℝ)) (y : List ℝ) (fuel : ℕ)
    (s : ℕ × ℝ × Dir)
    (hw : ∀ v ∈ w, 0 ≤ v) (hsum : w.sum = 1)
    (hsel : best_decision_stump w X y fuel = some s) :
    ∃ pre post, stumpCandidates X fuel = pre ++ s :: post
      ∧ (∀ c ∈ stumpCandidates X fuel, candErr w X y s ≤ candErr w X y c)
      ∧ (∀ p ∈ pre, candErr w X y s < candErr w X y p) :=
  best_decision_stump_spec w X y fuel s hsel

/-- Witness for C4 at a concrete input. -/
theorem c4_witness :
    (∀ v ∈ ([1/2, 1/2] : List ℝ), 0 ≤ v) ∧ ([1/2, 1/2] : List ℝ).sum = 1
    ∧ best_decision_stump ([1/2, 1/2] : List ℝ) (Xsep (α := ℝ)) ytwo 100
        = some (0, 1/200, Dir.gt)
    ∧ ∃ pre post, stumpCandidates (Xsep (α := ℝ)) 100 = pre ++ (0, 1/200, Dir.gt) :: post
      ∧ (∀ c ∈ stumpCandidates (Xsep (α := ℝ)) 100,
          candErr ([1/2, 1/2] : List ℝ) Xsep ytwo (0, 1/200, Dir.gt)
            ≤ candErr ([1/2, 1/2] : List ℝ) Xsep ytwo c)
      ∧ (∀ p ∈ pre, candErr ([1/2, 1/2] : List ℝ) Xsep ytwo (0, 1/200, Dir.gt)
          < candErr ([1/2, 1/2] : List ℝ) Xsep ytwo p) := by
  have hsel : best_decision_stump ([1/2, 1/2] : List ℝ) (Xsep (α := ℝ)) ytwo 100
      = some (0, 1/200, Dir.gt) := by
    have h := selSepTwo_eval
    rw [show (initW 2 : List ℝ) = [1/2, 1/2] from by
      norm_num [initW, List.replicate]] at h
    exact h
  exact ⟨by intro v hv; fin_cases hv <;> norm_num, by norm_num, hsel,
    c4_selector_minimal [1/2, 1/2] Xsep ytwo 100 (0, 1/200, Dir.gt)
      (by intro v hv; fin_cases hv <;> norm_num) (by norm_num) hsel⟩

/-- C5: after every completed training round whose weighted error em lies
strictly between 0 and 1 (along with all earlier rounds), the weight vector
is entrywise nonnegative and sums to 1. -/
theorem c5_weights_invariant (X : List (List ℝ)) (y : List ℝ) (fuel k : ℕ) (w : List ℝ)
    (hk : 0 < k)
    (hw : weightsAfter Real.exp Real.log X y fuel k = some w)
    (hem : ∀ j, j < k → ∀ e, emAfter Real.exp Real.log X y fuel j = some e →
      0 < e ∧ e < 1) :
    (∀ v ∈ w, 0 ≤ v) ∧ w.sum = 1 := by
  cases k with
  | zero => omega
  | succ j =>
    rw [weightsAfter] at hw
    simp only [stepIter] at hw
    cases hu : stepIter Real.exp Real.log X y fuel (initW X.length) j with
    | none => rw [hu] at hw; simp at hw
    | some u =>
      rw [hu] at hw
      replace hw : (adaboostStep Real.exp Real.log X y fuel u).map (fun r => r.2.2)
          = some w := hw
      simp only [Option.map_eq_some'] at hw
      obtain ⟨r, hr, hw2⟩ := hw
      obtain ⟨c, a, w2⟩ := r
      have hwAfter : weightsAfter Real.exp Real.log X y fuel j = some u := hu
      have hemj := hem j (by omega) (dotNe u y (wherePreds c X))
        (emAfter_of_step X y fuel j u c a w2 hwAfter hr)
      have hnn := weightsAfter_nonneg X y fuel j u hwAfter
      have hinv := step_weights_inv X y u fuel c a w2 hr hnn hemj.1
      rw [← hw2]
      exact hinv

/-- Witness for C5 at a concrete input: one round on Xsep with labels ytwo. -/
theorem c5_witness :
    (∀ v ∈ ([1/2, 1/2] : List ℝ), 0 ≤ v) ∧ ([1/2, 1/2] : List ℝ).sum = 1 :=
  c5_weights_invariant Xsep ytwo 100 1 [1/2, 1/2] (by norm_num) waSepTwo_eval
    (by
      intro j hj e he
      have hj0 : j = 0 := by omega
      subst hj0
      rw [emSepTwo_eval] at he
      simp only [Option.some.injEq] at he
      subst he
      norm_num)

/-- C6: an ensemble returned by adaboost contains exactly num_iterations
stumps, the alpha vector has the same length, and entry t of each list is
exactly the stump, respectively the confidence weight, produced by the round
that ran on the weight vector of round t: order equals training order. -/
theorem c6_ensemble_shape (X : List (List ℝ)) (y : List ℝ) (fuel T : ℕ)
    (fs : List (ℕ × ℝ × Dir)) (al : List ℝ)
    (h : adaboost Real.exp Real.log X y fuel T = some (fs, al)) :
    fs.length = T ∧ al.length = T ∧
    ∀ t, t < T → ∃ u r, weightsAfter Real.exp Real.log X y fuel t = some u
      ∧ adaboostStep Real.exp Real.log X y fuel u = some r
      ∧ fs.getD t (0, 0, Dir.gt) = r.1 ∧ al.getD t 0 = r.2.1 :=
  adaboostGo_spec Real.exp Real.log X y fuel T (initW X.length) fs al h

/-- Witness for C6 at a concrete one-round training run. -/
theorem c6_witness :
    adaboost Real.exp Real.log (Xsep (α := ℝ)) ytwo 100 1
      = some ([(0, 1/200, Dir.gt)], [1/2 * Real.log 1])
    ∧ ([(0, 1/200, Dir.gt)] : List (ℕ × ℝ × Dir)).length = 1
    ∧ ([1/2 * Real.log 1] : List ℝ).length = 1
    ∧ (∀ t, t < 1 → ∃ u r,
        weightsAfter Real.exp Real.log (Xsep (α := ℝ)) ytwo 100 t = some u
        ∧ adaboostStep Real.exp Real.log (Xsep (α := ℝ)) ytwo 100 u = some r
        ∧ ([(0, 1/200, Dir.gt)] : List (ℕ × ℝ × Dir)).getD t (0, 0, Dir.gt) = r.1
        ∧ ([1/2 * Real.log 1] : List ℝ).getD t 0 = r.2.1) := by
  have h := c6_ensemble_shape Xsep ytwo 100 1 [(0, 1/200, Dir.gt)] [1/2 * Real.log 1]
    run1Sep_eval
  exact ⟨run1Sep_eval, h.1, h.2.1, h.2.2⟩

/-- C7, counterexample: the claim asserts that in every round with em strictly
between 0 and 1 the reweighting makes misclassified examples gain weight.  On
Xdeg with labels ydeg the selected stump has em = 2/3, example 1 is
misclassified (label 1, prediction -1), its weight before the round is 1/3,
and its weight after the round is 1/4, which is not a gain. -/
theorem c7_counterexample :
    adaboostStep Real.exp Real.log (Xdeg (α := ℝ)) ydeg 100 (initW 3)
      = some ((0, 5/1000, Dir.gt), 1/2 * Real.log (1/2), [1/2, 1/4, 1/4])
    ∧ dotNe (initW 3) (ydeg : List ℝ) (wherePreds (0, 5/1000, Dir.gt) Xdeg) = 2/3
    ∧ (0 : ℝ) < 2/3 ∧ (2/3 : ℝ) < 1
    ∧ (ydeg : List ℝ).getD 1 0 = 1
    ∧ (wherePreds (0, 5/1000, Dir.gt) (Xdeg (α := ℝ))).getD 1 0 = -1
    ∧ (initW 3 : List ℝ).getD 1 0 = 1/3
    ∧ ([1/2, 1/4, 1/4] : List ℝ).getD 1 0 = 1/4
    ∧ ¬ ((1/3 : ℝ) < 1/4) := by
  refine ⟨stepDeg_eval, ?_, by norm_num, by norm_num, by norm_num [ydeg], ?_,
    by norm_num [initW, List.replicate], by norm_num, by norm_num⟩
  · rw [predsDeg_eval]
    norm_num [initW, List.replicate, ydeg]
  · rw [predsDeg_eval]
    rfl

/-- C7, amended: in every round with em strictly between 0 and 1 the
confidence weight is alpha = 0.5 * log((1 - em) / em) and the new weight
vector is the renormalised exp(-alpha * y * prediction) update, which equals
w / (2 em) on misclassified and w / (2 (1 - em)) on correctly classified
examples; when additionally em < 1/2, every misclassified example of positive
weight gains weight and every correctly classified example of positive weight
loses weight (for em above 1/2 the effect is reversed). -/
theorem c7_round_update_amended (X : List (List ℝ)) (y w : List ℝ) (fuel : ℕ)
    (c : ℕ × ℝ × Dir) (a : ℝ) (w' : List ℝ)
    (hstep : adaboostStep Real.exp Real.log X y fuel w = some (c, a, w'))
    (hsum : w.sum = 1)
    (hylen : y.length = w.length)
    (hplen : (wherePreds c X).length = w.length)
    (hy : ∀ v ∈ y, v = 1 ∨ v = -1)
    (h0 : 0 < dotNe w y (wherePreds c X))
    (h1 : dotNe w y (wherePreds c X) < 1) :
    a = 1/2 * Real.log ((1 - dotNe w y (wherePreds c X)) / dotNe w y (wherePreds c X))
    ∧ w' = charUpdate (dotNe w y (wherePreds c X)) w y (wherePreds c X)
    ∧ (dotNe w y (wherePreds c X) < 1/2 →
        ∀ i, i < w.length → 0 < w.getD i 0 →
          (y.getD i 0 ≠ (wherePreds c X).getD i 0 → w.getD i 0 < w'.getD i 0)
          ∧ (y.getD i 0 = (wherePreds c X).getD i 0 → w'.getD i 0 < w.getD i 0)) := by
  obtain ⟨hsel, _, _⟩ := adaboostStep_inv _ _ _ _ _ _ _ _ _ hstep
  have hchar := step_char X y w fuel c hsel hsum hylen hplen hy h0 h1
  rw [hstep] at hchar
  simp only [Option.some.injEq, Prod.mk.injEq] at hchar
  obtain ⟨-, ha2, hw2⟩ := hchar
  refine ⟨ha2, hw2, ?_⟩
  intro hhalf i hi hwi
  constructor
  · intro hne
    rw [hw2, charUpdate, map3_getD _ _ _ _ i hi (by rw [hylen]; exact hi)
      (by rw [hplen]; exact hi)]
    rw [if_neg hne]
    rw [lt_div_iff₀ (by linarith : (0:ℝ) < 2 * dotNe w y (wherePreds c X))]
    nlinarith
  · intro heq
    rw [hw2, charUpdate, map3_getD _ _ _ _ i hi (by rw [hylen]; exact hi)
      (by rw [hplen]; exact hi)]
    rw [if_pos heq]
    rw [div_lt_iff₀ (by linarith : (0:ℝ) < 2 * (1 - dotNe w y (wherePreds c X)))]
    nlinarith

/-- Witness for the amended C7 at round 0 of the end-to-end dataset, where
em = 1/7 is below 1/2. -/
theorem c7_witness :
    ([1/2, 1/12, 1/12, 1/12, 1/12, 1/12, 1/12] : List ℝ)
        = charUpdate (dotNe (initW 7) (ydata : List ℝ)
            (wherePreds (0, 41/200, Dir.lt) Xdata))
            (initW 7) ydata (wherePreds (0, 41/200, Dir.lt) Xdata)
    ∧ (dotNe (initW 7) (ydata : List ℝ) (wherePreds (0, 41/200, Dir.lt) Xdata) < 1/2 →
        ∀ i, i < (initW 7 : List ℝ).length → 0 < (initW 7 : List ℝ).getD i 0 →
          ((ydata : List ℝ).getD i 0
              ≠ (wherePreds (0, 41/200, Dir.lt) (Xdata (α := ℝ))).getD i 0 →
            (initW 7 : List ℝ).getD i 0
              < ([1/2, 1/12, 1/12, 1/12, 1/12, 1/12, 1/12] : List ℝ).getD i 0)
          ∧ ((ydata : List ℝ).getD i 0
              = (wherePreds (0, 41/200, Dir.lt) (Xdata (α := ℝ))).getD i 0 →
            ([1/2, 1/12, 1/12, 1/12, 1/12, 1/12, 1/12] : List ℝ).getD i 0
              < (initW 7 : List ℝ).getD i 0)) := by
  have hem : dotNe (initW 7) (ydata : List ℝ) (wherePreds (0, 41/200, Dir.lt) Xdata)
      = 1/7 := by
    rw [preds1_eval]
    norm_num [initW, List.replicate, ydata]
  have h := c7_round_update_amended (Xdata (α := ℝ)) ydata (initW 7) 100
    (0, 41/200, Dir.lt) (1/2 * Real.log 6) [1/2, 1/12, 1/12, 1/12, 1/12, 1/12, 1/12]
    step1_eval
    (by norm_num [initW, List.replicate])
    (by norm_num [initW, List.replicate, ydata])
    (by rw [preds1_eval]; norm_num [initW, List.replicate])
    ydata_pm
    (by rw [hem]; norm_num)
    (by rw [hem]; norm_num)
  exact ⟨h.2.1, h.2.2⟩

/-- C8: the claim states that on the end-to-end dataset, training for 3
iterations yields exactly 3 stumps with finite alphas, and that classify then
achieves strictly lower weighted training error than the single best stump.
The ensemble and alphas are as claimed, but because classify initialises its
accumulator to np.ones(n), it mislabels example 3 and its uniform weighted
training error is 1/7, exactly equal to the single best stump's error, not
strictly lower. -/
theorem c8_end_to_end :
    adaboost Real.exp Real.log (Xdata (α := ℝ)) ydata 100 3
      = some ([(0, 41/200, Dir.lt), (1, 37/200, Dir.lt), (1, 31/200, Dir.lt)],
          [1/2 * Real.log 6, 1/2 * Real.log 11, 1/2 * Real.log 10])
    ∧ ([(0, 41/200, Dir.lt), (1, 37/200, Dir.lt), (1, 31/200, Dir.lt)]
        : List (ℕ × ℝ × Dir)).length = 3
    ∧ classify [(0, 41/200, Dir.lt), (1, 37/200, Dir.lt), (1, 31/200, Dir.lt)]
        [1/2 * Real.log 6, 1/2 * Real.log 11, 1/2 * Real.log 10] (Xdata (α := ℝ))
        = [1, 1, 1, 1, 1, -1, -1]
    ∧ best_decision_stump (initW 7) (Xdata (α := ℝ)) ydata 100
        = some (0, 41/200, Dir.lt)
    ∧ dotNe (initW 7) ([1, 1, 1, 1, 1, -1, -1] : List ℝ) ydata = 1/7
    ∧ dotNe (initW 7) (wherePreds (0, 41/200, Dir.lt) (Xdata (α := ℝ))) ydata = 1/7
    ∧ ¬ ((1/7 : ℝ) < (1/7 : ℝ)) := by
  refine ⟨run3_eval, rfl, classifyC8_eval, sel1_eval, ?_, ?_, by norm_num⟩
  · norm_num [initW, List.replicate, ydata]
  · rw [preds1_eval]
    norm_num [initW, List.replicate, ydata]

/-- C9: whenever no example value at the chosen feature equals the threshold,
the inline np.where predictions used by the trainer and the predictor agree
exactly with the sign-based stump_classification_result. -/
theorem c9_preds_agree (X : List (List ℝ)) (f : ℕ) (t : ℝ) (d : Dir)
    (h : ∀ v ∈ col X f, v ≠ t) :
    wherePreds (f, t, d) X = stump_classification_result f t d X :=
  wherePreds_eq_stump X f t d h

/-- Witness for C9 at a concrete input. -/
theorem c9_witness :
    (∀ v ∈ col ([[0], [1]] : List (List ℝ)) 0, v ≠ 1/2)
    ∧ wherePreds (0, 1/2, Dir.gt) ([[0], [1]] : List (List ℝ))
        = stump_classification_result 0 (1/2) Dir.gt ([[0], [1]] : List (List ℝ)) := by
  have h : ∀ v ∈ col ([[0], [1]] : List (List ℝ)) 0, v ≠ 1/2 := by
    intro v hv
    rw [show col ([[0], [1]] : List (List ℝ)) 0 = [0, 1] from by
      norm_num [col, List.getD]] at hv
    fin_cases hv <;> norm_num
  exact ⟨h, c9_preds_agree [[0], [1]] 0 (1/2) Dir.gt h⟩

/-- C10: when the threshold sweep of every feature is empty, that is, for
every feature the minimum plus 0.005 is at least the maximum minus 0.005,
best_decision_stump returns the None triple. -/
theorem c10_empty_sweep_none (X : List (List ℝ)) (w y : List ℝ) (fuel : ℕ)
    (h : ∀ f, f < (X.headD []).length →
      listMax (col X f) - 5/1000 ≤ listMin (col X f) + 5/1000) :
    best_decision_stump w X y fuel = none := by
  rw [best_decision_stump, stumpCandidates_empty X fuel h]
  rfl

/-- Witness for C10 at a concrete input whose only feature has range 0.01. -/
theorem c10_witness :
    (∀ f, f < ((Xflat (α := ℝ)).headD []).length →
      listMax (col (Xflat (α := ℝ)) f) - 5/1000
        ≤ listMin (col (Xflat (α := ℝ)) f) + 5/1000)
    ∧ best_decision_stump ([1/2, 1/2] : List ℝ) (Xflat (α := ℝ)) ([1, 1] : List ℝ) 100
        = none := by
  have h : ∀ f, f < ((Xflat (α := ℝ)).headD []).length →
      listMax (col (Xflat (α := ℝ)) f) - 5/1000
        ≤ listMin (col (Xflat (α := ℝ)) f) + 5/1000 := by
    intro f hf
    rw [show ((Xflat (α := ℝ)).headD []).length = 1 from by norm_num [Xflat]] at hf
    have hf0 : f = 0 := by omega
    subst hf0
    norm_num [listMax, listMin, col, Xflat, List.getD, max_def, min_def]
  exact ⟨h, c10_empty_sweep_none Xflat [1/2, 1/2] [1, 1] 100 h⟩

end HW2
